import Mathlib

/-!
Verification of the DOCX cleaning utility (clean_doc.py).

The development shallowly embeds the program. Text is a list of Unicode
scalar values (matching a Python str as a sequence of code points). Pure
functions of the source become Lean functions; the filesystem effects of
the CLI driver become explicit state passing over an association list of
paths to in-memory documents.

External capabilities the source consumes as black boxes (the docx
container library, the ftfy mojibake heuristic, tqdm) are not
reimplemented: the ftfy fix function is a parameter of the embedding,
documents are structured values, and tqdm is an identity wrapper over
iteration.
-/

namespace CleanDoc

/-- Convenience: the characters of a string literal. -/
def chars (s : String) : List Char := s.data

/-! ## Unicode general categories Cc and Cf

The source asks `unicodedata.category(ch) in {"Cf", "Cc"}`. We embed the
category test as the membership test on the code point ranges that the
Unicode character database assigns to Cc and Cf (Unicode 15.0, the
database of current CPython); everything in the development is stated
relative to this predicate. -/

/-- Category Cc (control): U+0000..U+001F and U+007F..U+009F. -/
def isCategoryCc (c : Char) : Bool :=
  c.toNat < 0x20 || (0x7F ≤ c.toNat && c.toNat ≤ 0x9F)

/-- Category Cf (format): the Unicode format code points. -/
def isCategoryCf (c : Char) : Bool :=
  let n := c.toNat
  n == 0xAD ||
  (0x600 ≤ n && n ≤ 0x605) ||
  n == 0x61C ||
  n == 0x6DD ||
  n == 0x70F ||
  (0x890 ≤ n && n ≤ 0x891) ||
  n == 0x8E2 ||
  n == 0x180E ||
  (0x200B ≤ n && n ≤ 0x200F) ||
  (0x202A ≤ n && n ≤ 0x202E) ||
  (0x2060 ≤ n && n ≤ 0x2064) ||
  (0x2066 ≤ n && n ≤ 0x206F) ||
  n == 0xFEFF ||
  (0xFFF9 ≤ n && n ≤ 0xFFFB) ||
  n == 0x110BD ||
  n == 0x110CD ||
  (0x13430 ≤ n && n ≤ 0x1343F) ||
  (0x1BCA0 ≤ n && n ≤ 0x1BCA3) ||
  (0x1D173 ≤ n && n ≤ 0x1D17A) ||
  n == 0xE0001 ||
  (0xE0020 ≤ n && n ≤ 0xE007F)

/-- `unicodedata.category(ch) in CONTROL_CATEGORIES` with
`CONTROL_CATEGORIES = {"Cf", "Cc"}` (clean_doc.py line 28). -/
def inControlCategories (c : Char) : Bool :=
  isCategoryCf c || isCategoryCc c

/-- The removal condition of clean_doc.py line 39:
`unicodedata.category(ch) in CONTROL_CATEGORIES and ch not in "\t\n\r"`. -/
def removeChar (c : Char) : Bool :=
  inControlCategories c && !(c == '\t' || c == '\n' || c == '\r')

/-- `_strip_control_chars` (clean_doc.py lines 31..43): walk the text,
drop every character satisfying the removal condition while counting it,
keep every other character in order. Returns (new text, removed count). -/
def stripControlChars : List Char → List Char × Nat
  | [] => ([], 0)
  | ch :: rest =>
    if removeChar ch then
      ((stripControlChars rest).1, (stripControlChars rest).2 + 1)
    else
      (ch :: (stripControlChars rest).1, (stripControlChars rest).2)

/-- `_clean_string` (clean_doc.py lines 46..60). The ftfy call
`fix_text(text, normalization="NFC")` is the black-box parameter
`fixText`. Returns (cleaned text, mojibake fix count, control removed
count); empty input returns immediately (`if not text`). -/
def cleanString (fixText : List Char → List Char) (text : List Char) :
    List Char × Nat × Nat :=
  if text = [] then (text, 0, 0)
  else
    let fixed := fixText text
    let mojibakeFixes := (text.zip fixed).countP (fun ab => ab.1 != ab.2)
        + ((text.length : Int) - (fixed.length : Int)).natAbs
    ((stripControlChars fixed).1, mojibakeFixes, (stripControlChars fixed).2)

/-- Spec-side counting: the number of positions, up to the shorter of the
two lengths, where the two texts hold different characters. -/
def posDiffCount : List Char → List Char → Nat
  | a :: as, b :: bs => (if a ≠ b then 1 else 0) + posDiffCount as bs
  | _, _ => 0

/-! ## Helper lemmas about the filter -/

theorem stripControlChars_eq_filter (s : List Char) :
    stripControlChars s =
      (s.filter (fun c => !removeChar c), (s.filter removeChar).length) := by
  induction s with
  | nil => rfl
  | cons c cs ih =>
    simp only [stripControlChars, ih, List.filter]
    cases hc : removeChar c <;> simp [hc]

theorem stripControlChars_len (s : List Char) :
    (stripControlChars s).1.length + (stripControlChars s).2 = s.length := by
  induction s with
  | nil => rfl
  | cons c cs ih =>
    simp only [stripControlChars]
    cases hc : removeChar c <;> simp <;> omega

theorem stripControlChars_no_control (s : List Char) :
    ∀ c ∈ (stripControlChars s).1, removeChar c = false := by
  rw [stripControlChars_eq_filter]
  intro c hc
  have := List.of_mem_filter hc
  simpa using this

theorem stripControlChars_of_clean (s : List Char)
    (h : ∀ c ∈ s, removeChar c = false) : stripControlChars s = (s, 0) := by
  rw [stripControlChars_eq_filter]
  have h1 : s.filter (fun c => !removeChar c) = s :=
    List.filter_eq_self.mpr (by intro a ha; simp [h a ha])
  have h2 : s.filter removeChar = [] :=
    List.filter_eq_nil_iff.mpr (by intro a ha; simp [h a ha])
  simp [h1, h2]

theorem stripControlChars_idem (s : List Char) :
    stripControlChars (stripControlChars s).1 = ((stripControlChars s).1, 0) :=
  stripControlChars_of_clean _ (stripControlChars_no_control s)

theorem countP_zip_ne (a b : List Char) :
    (a.zip b).countP (fun ab => ab.1 != ab.2) = posDiffCount a b := by
  induction a generalizing b with
  | nil => cases b <;> rfl
  | cons x xs ih =>
    cases b with
    | nil => rfl
    | cons y ys =>
      simp only [List.zip_cons_cons, List.countP_cons, ih ys, posDiffCount]
      by_cases h : x = y
      · simp [h]
      · simp [h]
        omega

/-! ## The run and paragraph model (python-docx objects) -/

/-- A run: the smallest unit of styled text in a paragraph; the source
reads and replaces only its text. -/
structure Run where
  text : List Char
deriving DecidableEq

/-- A paragraph: an ordered list of runs. -/
structure Paragraph where
  runs : List Run
deriving DecidableEq

/-- The body of the inner loop of `_process_paragraphs` (clean_doc.py
lines 69..74): clean the text of one run, store the cleaned text only
when it differs from the original (`if new_text != run.text`), and hand
the two counts up. -/
def cleanRun (f : List Char → List Char) (r : Run) : Run × Nat × Nat :=
  ((if (cleanString f r.text).1 ≠ r.text then ⟨(cleanString f r.text).1⟩ else r),
   (cleanString f r.text).2.1, (cleanString f r.text).2.2)

/-- The inner loop of `_process_paragraphs` over the runs of one
paragraph, accumulating the two totals. -/
def processRuns (f : List Char → List Char) : List Run → List Run × Nat × Nat
  | [] => ([], 0, 0)
  | r :: rs =>
    ((cleanRun f r).1 :: (processRuns f rs).1,
     (cleanRun f r).2.1 + (processRuns f rs).2.1,
     (cleanRun f r).2.2 + (processRuns f rs).2.2)

/-- `_process_paragraphs` (clean_doc.py lines 63..76): visit every run of
every paragraph, returning the summed counters; the paragraphs come back
with their (possibly replaced) runs. -/
def processParagraphs (f : List Char → List Char) :
    List Paragraph → List Paragraph × Nat × Nat
  | [] => ([], 0, 0)
  | p :: ps =>
    (⟨(processRuns f p.runs).1⟩ :: (processParagraphs f ps).1,
     (processRuns f p.runs).2.1 + (processParagraphs f ps).2.1,
     (processRuns f p.runs).2.2 + (processParagraphs f ps).2.2)

theorem cleanRun_fst (f : List Char → List Char) (r : Run) :
    (cleanRun f r).1 = ⟨(cleanString f r.text).1⟩ := by
  obtain ⟨t⟩ := r
  simp only [cleanRun]
  split
  · rfl
  · next h => simp at h; simp [h]

theorem cleanRun_snd (f : List Char → List Char) (r : Run) :
    (cleanRun f r).2 = ((cleanString f r.text).2.1, (cleanString f r.text).2.2) :=
  rfl

theorem processRuns_eq (f : List Char → List Char) (rs : List Run) :
    processRuns f rs =
      (rs.map (fun r => ⟨(cleanString f r.text).1⟩),
       (rs.map (fun r => (cleanString f r.text).2.1)).sum,
       (rs.map (fun r => (cleanString f r.text).2.2)).sum) := by
  induction rs with
  | nil => rfl
  | cons r rs ih =>
    have h2 := cleanRun_snd f r
    simp [processRuns, ih, cleanRun_fst, Prod.ext_iff] at h2 ⊢
    exact ⟨h2.1, h2.2⟩

theorem processParagraphs_eq (f : List Char → List Char) (ps : List Paragraph) :
    processParagraphs f ps =
      (ps.map (fun p => ⟨p.runs.map (fun r => ⟨(cleanString f r.text).1⟩)⟩),
       (ps.map (fun p => (p.runs.map (fun r => (cleanString f r.text).2.1)).sum)).sum,
       (ps.map (fun p => (p.runs.map (fun r => (cleanString f r.text).2.2)).sum)).sum) := by
  induction ps with
  | nil => rfl
  | cons p ps ih => simp [processParagraphs, ih, processRuns_eq]

/-! ## Claim theorems on the string pipeline -/

/-- C2: the control-character filter returns exactly the input with the
characters of category Cf or Cc other than tab, newline and carriage
return deleted (all others kept in order) together with the count of
deleted characters; a string of one repeated such character maps to the
empty string with count the length, and a string without such characters
maps to itself with count 0. -/
theorem c2_strip_control_chars (s : List Char) :
    stripControlChars s =
      (s.filter (fun c => !removeChar c), (s.filter removeChar).length)
    ∧ ((∀ c ∈ s, removeChar c = false) → stripControlChars s = (s, 0))
    ∧ (∀ (c : Char) (n : Nat), removeChar c = true →
        stripControlChars (List.replicate n c) = ([], n)) := by
  refine ⟨stripControlChars_eq_filter s, stripControlChars_of_clean s, ?_⟩
  intro c n hc
  rw [stripControlChars_eq_filter]
  have h1 : (List.replicate n c).filter (fun x => !removeChar x) = [] := by
    apply List.filter_eq_nil_iff.mpr
    intro a ha
    rw [List.eq_of_mem_replicate ha]
    simp [hc]
  have h2 : (List.replicate n c).filter removeChar = List.replicate n c := by
    apply List.filter_eq_self.mpr
    intro a ha
    rw [List.eq_of_mem_replicate ha]
    exact hc
  simp [h1, h2]

theorem c2_strip_control_chars_witness :
    (stripControlChars (chars "ab") = (chars "ab", 0))
    ∧ stripControlChars (List.replicate 2 (Char.ofNat 0)) = ([], 2) :=
  ⟨(c2_strip_control_chars (chars "ab")).2.1 (by decide),
   (c2_strip_control_chars []).2.2 (Char.ofNat 0) 2 (by decide)⟩

/-- C3: for nonempty input, the mojibake change count of `_clean_string`
is the number of positions where input and repaired text differ, compared
pairwise up to the shorter length, plus the absolute difference of the
lengths. -/
theorem c3_change_count (f : List Char → List Char) (text : List Char)
    (h : text ≠ []) :
    (cleanString f text).2.1 =
      posDiffCount text (f text)
        + ((text.length : Int) - ((f text).length : Int)).natAbs := by
  simp only [cleanString, if_neg h, countP_zip_ne]

theorem c3_change_count_witness :
    chars "ab" ≠ []
    ∧ (cleanString (fun t => t ++ [Char.ofNat 120]) (chars "ab")).2.1 =
        posDiffCount (chars "ab") (chars "ab" ++ [Char.ofNat 120])
          + (((chars "ab").length : Int)
              - ((chars "ab" ++ [Char.ofNat 120]).length : Int)).natAbs :=
  ⟨by decide, c3_change_count (fun t => t ++ [Char.ofNat 120]) (chars "ab") (by decide)⟩

/-- C4: on empty input `_clean_string` returns (empty, 0, 0); the result
holds for every repair function, so the repair heuristic is never
consulted. -/
theorem c4_empty_input (f : List Char → List Char) :
    cleanString f [] = ([], 0, 0) := rfl

/-- C7: the length of the filtered text plus the removed count equals the
length of the input, for every input of the control-character filter. -/
theorem c7_length_invariant (s : List Char) :
    (stripControlChars s).1.length + (stripControlChars s).2 = s.length :=
  stripControlChars_len s

/-- C9: the cleaned text returned by `_clean_string` holds no character
of category Cf or Cc other than tab, newline and carriage return;
equivalently, running the filter on it again returns it unchanged with
removed count 0. -/
theorem c9_output_clean (f : List Char → List Char) (s : List Char) :
    stripControlChars (cleanString f s).1 = ((cleanString f s).1, 0)
    ∧ ∀ c ∈ (cleanString f s).1, removeChar c = false := by
  by_cases h : s = []
  · subst h; exact ⟨rfl, by intro c hc; simp [cleanString] at hc⟩
  · constructor
    · simp only [cleanString, if_neg h]
      exact stripControlChars_idem (f s)
    · simp only [cleanString, if_neg h]
      exact stripControlChars_no_control (f s)

theorem c9_output_clean_witness :
    stripControlChars (cleanString (fun t => t) (chars "a\u00AD")).1 =
      ((cleanString (fun t => t) (chars "a\u00AD")).1, 0)
    ∧ removeChar 'a' = false :=
  ⟨(c9_output_clean (fun t => t) (chars "a\u00AD")).1,
   (c9_output_clean (fun t => t) (chars "a\u00AD")).2 'a' (by decide)⟩

/-- C8: the paragraph walker visits every run of every paragraph: each
returned run holds the cleaned text of the original run, the two returned
totals are the sums over all runs of the repair change counts and of the
control removed counts, and a run whose cleaned text equals its original
text is returned untouched. -/
theorem c8_walker (f : List Char → List Char) (ps : List Paragraph) :
    (processParagraphs f ps).1 =
      ps.map (fun p => ⟨p.runs.map (fun r => ⟨(cleanString f r.text).1⟩)⟩)
    ∧ (processParagraphs f ps).2.1 =
        (ps.map (fun p => (p.runs.map (fun r => (cleanString f r.text).2.1)).sum)).sum
    ∧ (processParagraphs f ps).2.2 =
        (ps.map (fun p => (p.runs.map (fun r => (cleanString f r.text).2.2)).sum)).sum
    ∧ ∀ r : Run, (cleanString f r.text).1 = r.text → (cleanRun f r).1 = r := by
  refine ⟨?_, ?_, ?_, ?_⟩
  · rw [processParagraphs_eq]
  · rw [processParagraphs_eq]
  · rw [processParagraphs_eq]
  · intro r hr
    rw [cleanRun_fst, hr]

theorem c8_walker_witness :
    (processParagraphs (fun t => t) [⟨[⟨chars "hi"⟩]⟩]).1 =
      [⟨[⟨(cleanString (fun t => t) (chars "hi")).1⟩]⟩]
    ∧ (cleanRun (fun t => t) ⟨chars "hi"⟩).1 = ⟨chars "hi"⟩ :=
  ⟨(c8_walker (fun t => t) [⟨[⟨chars "hi"⟩]⟩]).1,
   (c8_walker (fun t => t) []).2.2.2 ⟨chars "hi"⟩ (by decide)⟩

/-! ## Paths and the filesystem model

A path is a parent directory (opaque label) plus a final component. The
name manipulations mirror pathlib: `suffix` and `stem` split the name at
the last dot when that dot is neither the first nor the last character;
`with_stem` and `with_suffix` rebuild the name from the parts. The
filesystem is an association list from paths to in-memory documents; the
source only ever creates, overwrites, renames and reads whole files, so
directories are not modeled (`mkdir` on a save is a no-op here). -/

structure FsPath where
  dir : String
  name : List Char
deriving DecidableEq

/-- pathlib rfind of the last occurrence of a character. -/
def rfindIdx (c : Char) (s : List Char) : Option Nat :=
  match s.reverse.findIdx? (· == c) with
  | none => none
  | some j => some (s.length - 1 - j)

/-- Split a final component into (stem, suffix), pathlib style: the
suffix starts at the last dot when `0 < i < len - 1`, otherwise it is
empty. -/
def splitName (name : List Char) : List Char × List Char :=
  match rfindIdx '.' name with
  | none => (name, [])
  | some i =>
    if 0 < i ∧ i < name.length - 1 then (name.take i, name.drop i)
    else (name, [])

def stemOf (p : FsPath) : List Char := (splitName p.name).1

def suffixOf (p : FsPath) : List Char := (splitName p.name).2

/-- `Path.with_stem`: replace the stem, keep the suffix. -/
def withStem (p : FsPath) (newStem : List Char) : FsPath :=
  ⟨p.dir, newStem ++ suffixOf p⟩

/-- `Path.with_suffix`: replace the suffix (used only with ".bak"). -/
def withSuffix (p : FsPath) (newSuffix : List Char) : FsPath :=
  ⟨p.dir, stemOf p ++ newSuffix⟩

/-- ASCII model of `str.lower`, applied only to extensions here. -/
def asciiLower (s : List Char) : List Char := s.map Char.toLower

/-! ## The document model (body paragraphs plus tables) -/

structure TableCell where
  paragraphs : List Paragraph
deriving DecidableEq

structure TableRow where
  cells : List TableCell
deriving DecidableEq

structure Table where
  rows : List TableRow
deriving DecidableEq

/-- A docx document as the source reads it: body paragraphs and tables of
rows of cells of paragraphs. -/
structure Docx where
  paragraphs : List Paragraph
  tables : List Table
deriving DecidableEq

/-- The table walk of `clean_docx` (clean_doc.py lines 88..93): for every
table, every row, every cell, process the cell paragraphs and add the
counters. -/
def processCells (f : List Char → List Char) :
    List TableCell → List TableCell × Nat × Nat
  | [] => ([], 0, 0)
  | c :: cs =>
    (⟨(processParagraphs f c.paragraphs).1⟩ :: (processCells f cs).1,
     (processParagraphs f c.paragraphs).2.1 + (processCells f cs).2.1,
     (processParagraphs f c.paragraphs).2.2 + (processCells f cs).2.2)

def processRows (f : List Char → List Char) :
    List TableRow → List TableRow × Nat × Nat
  | [] => ([], 0, 0)
  | r :: rs =>
    (⟨(processCells f r.cells).1⟩ :: (processRows f rs).1,
     (processCells f r.cells).2.1 + (processRows f rs).2.1,
     (processCells f r.cells).2.2 + (processRows f rs).2.2)

def processTables (f : List Char → List Char) :
    List Table → List Table × Nat × Nat
  | [] => ([], 0, 0)
  | t :: ts =>
    (⟨(processRows f t.rows).1⟩ :: (processTables f ts).1,
     (processRows f t.rows).2.1 + (processTables f ts).2.1,
     (processRows f t.rows).2.2 + (processTables f ts).2.2)

/-! ## The filesystem as explicit state -/

/-- The documents on disk: path to content. The write operation keeps
paths unique. -/
abbrev Disk := List (FsPath × Docx)

def fsExists (fs : Disk) (p : FsPath) : Bool :=
  fs.any (fun e => e.1 == p)

def fsLookup (fs : Disk) (p : FsPath) : Option Docx :=
  (fs.find? (fun e => e.1 == p)).map Prod.snd

/-- Write a document at a path, overwriting an existing entry, else
appending. -/
def fsWrite (fs : Disk) (p : FsPath) (d : Docx) : Disk :=
  if fsExists fs p then fs.map (fun e => if e.1 == p then (p, d) else e)
  else fs ++ [(p, d)]

def fsRemove (fs : Disk) (p : FsPath) : Disk :=
  fs.filter (fun e => e.1 != p)

/-- Errors that abort the run uncaught (here only a missing source file,
the one failure the claims exercise; a parse failure of a present file
cannot arise because the disk stores structured documents). -/
inductive RunError where
  | fileNotFound (p : FsPath)
deriving DecidableEq

/-! ## Glob matching

`Path.glob` over a single name component, with fnmatch wildcard
semantics: `*` matches any sequence, `?` any one character, `[...]` a
character alternative with leading `!` negation and `a-b` ranges; a `[`
with no closing `]` is literal. Matching is against the whole name and
case sensitive. -/

/-- Where the scan for the closing bracket starts: one past a leading
`!`, and one past a `]` standing right at that point. -/
def classStart (ps : List Char) : Nat :=
  if ps.head? = some '!' then
    if ps.get? 1 = some ']' then 2 else 1
  else
    if ps.head? = some ']' then 1 else 0

/-- Scan a character alternative. Input: the pattern characters after the
opening bracket. Follows the fnmatch scan: skip a leading `!`, then a
leading `]` (which is then an ordinary member), then look for the closing
`]`. Returns (negated, members, remaining pattern), or none when the
bracket never closes. -/
def classSplit (ps : List Char) : Option (Bool × List Char × List Char) :=
  match (ps.drop (classStart ps)).findIdx? (· == ']') with
  | none => none
  | some k =>
    if ps.head? = some '!' then
      some (true, (ps.take (classStart ps + k)).drop 1,
            ps.drop (classStart ps + k + 1))
    else
      some (false, ps.take (classStart ps + k), ps.drop (classStart ps + k + 1))

/-- Does a character alternative body match a character: `a-b` spans are
ranges, everything else is literal. -/
def classMatch : List Char → Char → Bool
  | lo :: '-' :: hi :: more, c =>
    (decide (lo ≤ c) && decide (c ≤ hi)) || classMatch more c
  | x :: more, c => (x == c) || classMatch more c
  | [], _ => false

/-- Wildcard matching, structurally recursive on an explicit evaluation
bound so that the kernel can evaluate it. Every step strictly shortens
the pattern plus the text, so any bound above that sum gives the true
match result (globMatchAux_fuel below); the bound carries no semantics. -/
def globMatchAux : Nat → List Char → List Char → Bool
  | 0, _, _ => false
  | _ + 1, [], s => s.isEmpty
  | fuel + 1, p :: ps, s =>
    if p = '*' then
      match s with
      | [] => globMatchAux fuel ps []
      | _ :: t => globMatchAux fuel ps s || globMatchAux fuel (p :: ps) t
    else if p = '?' then
      match s with
      | [] => false
      | _ :: t => globMatchAux fuel ps t
    else if p = '[' then
      match s with
      | [] => false
      | c :: t =>
        match classSplit ps with
        | none => c == '[' && globMatchAux fuel ps t
        | some (neg, body, rest) =>
          (neg != classMatch body c) && globMatchAux fuel rest t
    else
      match s with
      | [] => false
      | c :: t => p == c && globMatchAux fuel ps t

def globMatch (pat s : List Char) : Bool :=
  globMatchAux (pat.length + s.length + 1) pat s

theorem classSplit_rest_le (ps : List Char) (neg : Bool)
    (body rest : List Char) (h : classSplit ps = some (neg, body, rest)) :
    rest.length ≤ ps.length := by
  unfold classSplit at h
  split at h
  · exact absurd h (by simp)
  · split at h <;>
      (simp only [Option.some.injEq, Prod.mk.injEq] at h
       obtain ⟨-, -, hrest⟩ := h
       subst hrest
       simp)

theorem globMatchAux_fuel (fuel fuel2 : Nat) (pat s : List Char)
    (h : pat.length + s.length < fuel) (h2 : pat.length + s.length < fuel2) :
    globMatchAux fuel pat s = globMatchAux fuel2 pat s := by
  induction fuel generalizing fuel2 pat s with
  | zero => omega
  | succ k ih =>
    obtain ⟨k2, rfl⟩ : ∃ k2, fuel2 = k2 + 1 := ⟨fuel2 - 1, by omega⟩
    cases pat with
    | nil => rfl
    | cons p ps =>
      by_cases hp1 : p = '*'
      · subst hp1
        cases s with
        | nil =>
          show globMatchAux k ps [] = globMatchAux k2 ps []
          exact ih k2 ps [] (by simp at h ⊢; omega) (by simp at h2 ⊢; omega)
        | cons c t =>
          show (globMatchAux k ps (c :: t) || globMatchAux k ('*' :: ps) t)
            = (globMatchAux k2 ps (c :: t) || globMatchAux k2 ('*' :: ps) t)
          rw [ih k2 ps (c :: t) (by simp at h ⊢; omega) (by simp at h2 ⊢; omega),
              ih k2 ('*' :: ps) t (by simp at h ⊢; omega) (by simp at h2 ⊢; omega)]
      · by_cases hp2 : p = '?'
        · subst hp2
          cases s with
          | nil => rfl
          | cons c t =>
            show globMatchAux k ps t = globMatchAux k2 ps t
            exact ih k2 ps t (by simp at h ⊢; omega) (by simp at h2 ⊢; omega)
        · by_cases hp3 : p = '['
          · subst hp3
            cases s with
            | nil => rfl
            | cons c t =>
              show (match classSplit ps with
                    | none => c == '[' && globMatchAux k ps t
                    | some (neg, body, rest) =>
                      (neg != classMatch body c) && globMatchAux k rest t)
                = (match classSplit ps with
                    | none => c == '[' && globMatchAux k2 ps t
                    | some (neg, body, rest) =>
                      (neg != classMatch body c) && globMatchAux k2 rest t)
              cases hcs : classSplit ps with
              | none =>
                show (c == '[' && globMatchAux k ps t)
                  = (c == '[' && globMatchAux k2 ps t)
                rw [ih k2 ps t (by simp at h ⊢; omega) (by simp at h2 ⊢; omega)]
              | some parts =>
                obtain ⟨neg, body, rest⟩ := parts
                have hle := classSplit_rest_le ps neg body rest hcs
                show ((neg != classMatch body c) && globMatchAux k rest t)
                  = ((neg != classMatch body c) && globMatchAux k2 rest t)
                rw [ih k2 rest t (by simp at h ⊢; omega) (by simp at h2 ⊢; omega)]
          · simp only [globMatchAux, if_neg hp1, if_neg hp2, if_neg hp3]
            cases s with
            | nil => rfl
            | cons c t =>
              show (p == c && globMatchAux k ps t)
                = (p == c && globMatchAux k2 ps t)
              rw [ih k2 ps t (by simp at h ⊢; omega) (by simp at h2 ⊢; omega)]

/-- `parent.glob(pattern)`: the files of the given directory whose name
matches the pattern, in disk order. -/
def globDir (fs : Disk) (dir : String) (pat : List Char) : List FsPath :=
  (fs.map Prod.fst).filter (fun p => p.dir == dir && globMatch pat p.name)

/-- The literal-inclusion test of `_iter_docx` (clean_doc.py line 105):
`p.is_file() and p.suffix.lower() == ".docx"`. -/
def isDocxFile (fs : Disk) (p : FsPath) : Bool :=
  fsExists fs p && (asciiLower (suffixOf p) == chars ".docx")

/-- `_iter_docx` (clean_doc.py lines 101..108): a target naming an
existing file with (lowercased) extension .docx is yielded as given;
every other target is expanded with `p.parent.glob(p.name)`. -/
def iterDocx (fs : Disk) : List FsPath → List FsPath
  | [] => []
  | t :: rest =>
    (if isDocxFile fs t then [t] else globDir fs t.dir t.name)
      ++ iterDocx fs rest

/-! ## Document processor and main loop -/

/-- `clean_docx` (clean_doc.py lines 79..97): load the source document
(`Document(src)` raises when the file is missing), walk the body
paragraphs and then every table, save under the destination path (the
parent-directory creation of line 95 has no observable effect in this
file map), and return the summed counters. On failure the state at the
failure point rides along with the error. -/
def cleanDocx (f : List Char → List Char) (fs : Disk) (src dst : FsPath) :
    Except (RunError × Disk) (Disk × Nat × Nat) :=
  match fsLookup fs src with
  | none => .error (.fileNotFound src, fs)
  | some doc =>
    let bodyOut := processParagraphs f doc.paragraphs
    let tableOut := processTables f doc.tables
    .ok (fsWrite fs dst ⟨bodyOut.1, tableOut.1⟩,
         bodyOut.2.1 + tableOut.2.1, bodyOut.2.2 + tableOut.2.2)

/-- One iteration of the main loop (clean_doc.py lines 167..173):
compute the destination `src.with_stem(src.stem + suffix)`; when backup
is on and the destination exists, execute
`src.replace(src.with_suffix(".bak"))` — note the source renames the
SOURCE path, not the destination; then run `clean_docx(src, dst)`. -/
def processFile (f : List Char → List Char) (backup : Bool)
    (suffix : List Char) (fs : Disk) (src : FsPath) :
    Except (RunError × Disk) (Disk × Nat × Nat) :=
  let dst := withStem src (stemOf src ++ suffix)
  let afterBackup : Except (RunError × Disk) Disk :=
    if backup && fsExists fs dst then
      match fsLookup fs src with
      | none => .error (.fileNotFound src, fs)
      | some d => .ok (fsWrite (fsRemove fs src) (withSuffix src (chars ".bak")) d)
    else .ok fs
  match afterBackup with
  | .error e => .error e
  | .ok fs1 => cleanDocx f fs1 src dst

/-- The main loop over the resolved files, in order, accumulating the
two totals; a failure aborts the whole run. -/
def runLoop (f : List Char → List Char) (backup : Bool) (suffix : List Char) :
    Disk → List FsPath → Except (RunError × Disk) (Disk × Nat × Nat)
  | fs, [] => .ok (fs, 0, 0)
  | fs, src :: rest =>
    match processFile f backup suffix fs src with
    | .error e => .error e
    | .ok (fs1, mb, ctrl) =>
      match runLoop f backup suffix fs1 rest with
      | .error e => .error e
      | .ok (fs2, mbs, ctrls) => .ok (fs2, mb + mbs, ctrl + ctrls)

/-- The parsed command-line options (clean_doc.py lines 111..145):
positional targets, backup flag, output stem suffix (default _clean),
quiet flag. Targets arrive already in path form. -/
structure Args where
  targets : List FsPath
  backup : Bool
  suffix : List Char
  quiet : Bool

/-- The observable outcome of `main`: the usage-error path of
`ap.error` (argparse exits with status 2), normal completion, or an
uncaught exception terminating the process, each carrying the final
disk state. -/
inductive MainOutcome where
  | usageError (exitCode : Nat) (fs : Disk)
  | success (fs : Disk) (nfiles mb ctrl : Nat)
  | uncaught (e : RunError) (fs : Disk)
deriving DecidableEq

/-- The candidate resolution of `main` (clean_doc.py lines 155..159):
with targets, expand them through `_iter_docx`; with none, glob
`*.docx` in the directory of the script. -/
def resolveCandidates (fs : Disk) (scriptDir : String)
    (targets : List FsPath) : List FsPath :=
  if targets ≠ [] then iterDocx fs targets
  else globDir fs scriptDir (chars "*.docx")

/-- `main` (clean_doc.py lines 149..188): resolve the candidates, call
`ap.error` (exit status 2) when none, else run the loop. The quiet flag
and the printed report do not touch the disk and are not modeled beyond
the counts the outcome carries. -/
def mainModel (f : List Char → List Char) (scriptDir : String)
    (args : Args) (fs : Disk) : MainOutcome :=
  let candidates := resolveCandidates fs scriptDir args.targets
  if candidates = [] then .usageError 2 fs
  else
    match runLoop f args.backup args.suffix fs candidates with
    | .error (e, fs2) => .uncaught e fs2
    | .ok (fs2, mb, ctrl) => .success fs2 candidates.length mb ctrl

/-! ## Fixtures for the concrete claims -/

def sampleDoc : Docx := ⟨[⟨[⟨chars "hello"⟩]⟩], []⟩

def priorOut : Docx := ⟨[⟨[⟨chars "old"⟩]⟩], []⟩

def srcPath : FsPath := ⟨"work", chars "report.docx"⟩

def dstPath : FsPath := ⟨"work", chars "report_clean.docx"⟩

def bakPath : FsPath := ⟨"work", chars "report.bak"⟩

/-- A disk on which the backup branch fires: the source and, from a
prior run, its output under the default suffix. -/
def backupDisk : Disk := [(srcPath, sampleDoc), (dstPath, priorOut)]

def emptyDoc : Docx := ⟨[], []⟩

def txtPath : FsPath := ⟨"work", chars "notes.txt"⟩

def upperPath : FsPath := ⟨"work", chars "REPORT.DOCX"⟩

/-! ## Claim theorems on the driver -/

/-- C1 (code bug): with backup on and the destination present, the code
does not rename the destination: line 171 executes
`src.replace(src.with_suffix(".bak"))`, which renames the SOURCE to
report.bak, after which `clean_docx` cannot open the source and the run
dies with a file-not-found error. On the failing disk the destination
still holds the prior output, no backup of the destination
(report_clean.bak) exists, and no new output was written. -/
theorem c1_backup_renames_source_and_crashes :
    processFile (fun t => t) true (chars "_clean") backupDisk srcPath =
      .error (.fileNotFound srcPath, [(dstPath, priorOut), (bakPath, sampleDoc)])
    ∧ fsLookup [(dstPath, priorOut), (bakPath, sampleDoc)] dstPath = some priorOut
    ∧ fsExists [(dstPath, priorOut), (bakPath, sampleDoc)]
        (withSuffix dstPath (chars ".bak")) = false
    ∧ bakPath = withSuffix srcPath (chars ".bak") :=
  ⟨rfl, by decide, by decide, by decide⟩

/-- C5: when the resolved candidate set is empty — whether targets were
given or the script-directory fallback ran — `main` takes the
`ap.error` path, exiting with status 2, and the disk comes back exactly
as it was: nothing is created, renamed or modified. -/
theorem c5_empty_resolution (f : List Char → List Char) (scriptDir : String)
    (args : Args) (fs : Disk)
    (h : resolveCandidates fs scriptDir args.targets = []) :
    mainModel f scriptDir args fs = .usageError 2 fs := by
  simp only [mainModel, h, if_pos]

theorem c5_empty_resolution_witness :
    resolveCandidates [] "scripts" [] = []
    ∧ mainModel (fun t => t) "scripts" ⟨[], false, chars "_clean", false⟩ [] =
        .usageError 2 [] :=
  ⟨by decide,
   c5_empty_resolution (fun t => t) "scripts"
     ⟨[], false, chars "_clean", false⟩ [] (by decide)⟩

/-- C10: target resolution yields a target as given exactly when it is an
existing file whose lowercased extension is .docx (first conjunct
characterizes the whole output of `_iter_docx`); an existing file with a
mixed-case extension passes the literal test (REPORT.DOCX), and an
existing file with another extension takes the glob branch and its glob
expansion can still yield the file itself (notes.txt). -/
theorem c10_target_resolution :
    (∀ (fs : Disk) (ts : List FsPath) (p : FsPath),
      p ∈ iterDocx fs ts ↔ ∃ t ∈ ts,
        if isDocxFile fs t then p = t
        else p ∈ globDir fs t.dir t.name)
    ∧ isDocxFile [(upperPath, emptyDoc)] upperPath = true
    ∧ iterDocx [(upperPath, emptyDoc)] [upperPath] = [upperPath]
    ∧ isDocxFile [(txtPath, emptyDoc)] txtPath = false
    ∧ iterDocx [(txtPath, emptyDoc)] [txtPath] = [txtPath] := by
  refine ⟨?_, by decide, by decide, by decide, by decide⟩
  intro fs ts p
  induction ts with
  | nil => simp [iterDocx]
  | cons t rest ih =>
    by_cases hc : isDocxFile fs t <;>
      simp [iterDocx, hc, ih, or_and_right, exists_or]

theorem c10_target_resolution_witness :
    txtPath ∈ iterDocx [(txtPath, emptyDoc)] [txtPath] ↔ ∃ t ∈ [txtPath],
      if isDocxFile [(txtPath, emptyDoc)] t then txtPath = t
      else txtPath ∈ globDir [(txtPath, emptyDoc)] t.dir t.name :=
  c10_target_resolution.1 [(txtPath, emptyDoc)] [txtPath] txtPath

end CleanDoc
